import Mathlib

/-!
Verification development for the go-identity-parser repository: a shallow
embedding of the document field-extraction pipeline (region-based stage,
regex fallback stage, normalization and validation) together with theorems
about it.

Go strings are modelled as lists of Unicode scalar values (`List Char`).
Go `len(s)` is a byte count, modelled by `utf8Len` (sum of the UTF-8 sizes
of the runes); `len([]rune(s))` is `List.length`.
-/

/-- Go strings modelled as rune (Unicode scalar) sequences. -/
abbrev Str := List Char

/-- The rune list of a Lean string literal. -/
def chars (s : String) : Str := s.data

/-- Go `unicode.IsSpace`: the Unicode White_Space property
(ASCII spaces, NEL, NBSP, and the Unicode space separators). -/
def goSpace (c : Char) : Bool :=
  ([' ', '\t', '\n', '\x0b', '\x0c', '\r'] : List Char).contains c
  || c.val = 0x85 || c.val = 0xA0 || c.val = 0x1680
  || (0x2000 ≤ c.val && c.val ≤ 0x200A)
  || c.val = 0x2028 || c.val = 0x2029 || c.val = 0x202F
  || c.val = 0x205F || c.val = 0x3000

/-- Go `len(s)` on a string: its byte length, the sum of UTF-8 sizes. -/
def utf8Len (s : Str) : Nat := (s.map Char.utf8Size).sum

/-- Substring search: `containsSub pat s` is Go `strings.Contains(s, pat)`. -/
def containsSub (pat : Str) : Str → Bool
  | [] => pat.isPrefixOf []
  | c :: rest => pat.isPrefixOf (c :: rest) || containsSub pat rest

/-- Go `strings.Contains(s, sub)`. -/
def goContains (s sub : Str) : Bool := containsSub sub s

/-- Go `strings.ContainsAny(s, cs)`: some rune of `s` occurs in `cs`. -/
def goContainsAny (s cs : Str) : Bool := s.any (fun c => cs.contains c)

/-- Go `strings.TrimSpace`: drop leading and trailing white space. -/
def goTrimSpace (s : Str) : Str :=
  ((s.dropWhile goSpace).reverse.dropWhile goSpace).reverse

/-- Left-to-right replacement of non-overlapping occurrences of `pat` by
`rep`, with structural fuel recursion so that concrete runs reduce in the
kernel.  A replacement of a non-empty pattern shortens the rest of the
input by at least one rune, so for fuel at least the input length the
fuel-exhausted arm is never reached (replaceAllF_fuel below). -/
def replaceAllF (pat rep : Str) : Nat → Str → Str
  | _, [] => []
  | 0, s => s
  | f + 1, c :: rest =>
    if pat ≠ [] ∧ pat.isPrefixOf (c :: rest) then
      rep ++ replaceAllF pat rep f ((c :: rest).drop pat.length)
    else
      c :: replaceAllF pat rep f rest

/-- Go `strings.ReplaceAll(s, pat, rep)` for a non-empty pattern.  (The
sources never call it with an empty pattern; for one this definition is
the identity.) -/
def replaceAll (pat rep s : Str) : Str := replaceAllF pat rep (s.length + 1) s

/-- The fuel of replaceAllF is irrelevant from the input length up. -/
theorem replaceAllF_fuel (pat rep : Str) :
    ∀ f g s, s.length ≤ f → s.length ≤ g →
      replaceAllF pat rep f s = replaceAllF pat rep g s := by
  intro f
  induction f with
  | zero =>
    intro g s hf _
    have : s = [] := List.eq_nil_of_length_eq_zero (Nat.le_zero.mp hf)
    subst this
    cases g <;> rfl
  | succ f ih =>
    intro g s hf hg
    match s, g with
    | [], g => cases g <;> rfl
    | c :: rest, 0 => simp at hg
    | c :: rest, g + 1 =>
      simp only [replaceAllF]
      by_cases h : pat ≠ [] ∧ pat.isPrefixOf (c :: rest)
      · rw [if_pos h, if_pos h]
        have hp : 0 < pat.length := List.length_pos.mpr h.1
        have hd : (List.drop pat.length (c :: rest)).length = (c :: rest).length - pat.length :=
          List.length_drop _ _
        have hlen : (List.drop pat.length (c :: rest)).length ≤ f := by
          simp only [List.length_cons] at hf hd
          omega
        have hlen2 : (List.drop pat.length (c :: rest)).length ≤ g := by
          simp only [List.length_cons] at hg hd
          omega
        rw [ih g _ hlen hlen2]
      · rw [if_neg h, if_neg h]
        have hlen : rest.length ≤ f := by
          simp only [List.length_cons] at hf
          omega
        have hlen2 : rest.length ≤ g := by
          simp only [List.length_cons] at hg
          omega
        rw [ih g rest hlen hlen2]

/-- The digit test of the validator loops: `r < '0' || r > '9'` rejected. -/
def goIsDigit (c : Char) : Bool := if c < '0' ∨ '9' < c then false else true

/-- A Go `map[string]string`, modelled as an association list with unique
keys; map assignment replaces in place or appends. -/
abbrev FieldMap := List (String × Str)

/-- Go map assignment `m[k] = v`. -/
def fmSet : FieldMap → String → Str → FieldMap
  | [], k, v => [(k, v)]
  | (k0, v0) :: rest, k, v =>
    if k0 = k then (k, v) :: rest else (k0, v0) :: fmSet rest k v

/-- Go map read `m[k]` with its presence bit. -/
def fmGet : FieldMap → String → Option Str
  | [], _ => none
  | (k0, v0) :: rest, k => if k0 = k then some v0 else fmGet rest k

/-- Go `_, exists := m[k]`. -/
def fmHas (m : FieldMap) (k : String) : Bool := (fmGet m k).isSome

/-- The key set of the map. -/
def fmKeys (m : FieldMap) : List String := m.map Prod.fst

/-- Equality of Go maps: the same value (or absence) at every key. -/
def fmEquiv (m1 m2 : FieldMap) : Prop := ∀ k, fmGet m1 k = fmGet m2 k

theorem fmGet_fmSet (m : FieldMap) (k k' : String) (v : Str) :
    fmGet (fmSet m k v) k' = if k' = k then some v else fmGet m k' := by
  induction m with
  | nil => by_cases h : k' = k <;> simp_all [fmSet, fmGet, eq_comm]
  | cons hd tl ih =>
    obtain ⟨k0, v0⟩ := hd
    by_cases h0 : k0 = k <;> by_cases h1 : k0 = k' <;>
      simp_all [fmSet, fmGet, eq_comm]

/-! ## Field validators (src/parser/individual_number_card_ocr.go) -/

/-- isValidName: rejects label keywords, length (in bytes) in [2,20], and
no digit, date-marker or administrative-division rune.  (The dead keyword
check in the source has an empty body and is omitted.) -/
def isValidName (text : Str) : Bool :=
  if goContains text (chars "氏名") || goContains text (chars "番号")
      || goContains text (chars "免許") then false
  else if utf8Len text < 2 || utf8Len text > 20 then false
  else !goContainsAny text (chars "0123456789年月日都道府県市区町村")

/-- isValidAddress: byte length at least 5, an address-indicator rune, and
not a name or birth-date label. -/
def isValidAddress (text : Str) : Bool :=
  if utf8Len text < 5 then false
  else if !goContainsAny text (chars "都道府県市区町村丁目番地") then false
  else if goContains text (chars "氏名") || goContains text (chars "生年月日") then false
  else true

/-- isValidDate: both the year and the month marker occur. -/
def isValidDate (text : Str) : Bool :=
  goContains text (chars "年") && goContains text (chars "月")

/-- isValidIndividualNumber: byte length exactly 12 and every rune a digit.
No stripping of any kind happens before the check. -/
def isValidIndividualNumber (text : Str) : Bool :=
  if utf8Len text ≠ 12 then false
  else text.all goIsDigit

/-- isValidLicenseNumber: ASCII spaces removed, then byte length exactly 12
and every rune a digit.  Hyphens are not removed. -/
def isValidLicenseNumber (text : Str) : Bool :=
  let cleaned := replaceAll (chars " ") [] text
  if utf8Len cleaned ≠ 12 then false
  else cleaned.all goIsDigit

/-! ## Region classifier (src/ocr/interface.go, categorizeText) -/

/-- categorizeText: the first matching heuristic decides the category.
Lengths are Go byte lengths. -/
def categorizeText (text : Str) : String :=
  if goContains text (chars "年") && goContains text (chars "月") then "date"
  else if goContains text (chars "都") || goContains text (chars "県")
      || goContains text (chars "市") || goContains text (chars "区") then "address"
  else if 2 ≤ utf8Len text && utf8Len text ≤ 10
      && !goContainsAny text (chars "0123456789") then "name"
  else if goContainsAny text (chars "0123456789") && 4 ≤ utf8Len text then "number"
  else "other"

/-! ## Region-based extraction -/

/-- An OCR text region; position and confidence are irrelevant to the
parsing logic and omitted. -/
structure RegionInfo where
  text : Str
  category : String
deriving DecidableEq

/-- extractMunicipalityFromRegions: the first region with a
metropolis, prefecture, city or ward rune whose trimmed text has byte
length in [3,20]. -/
def extractMunicipalityFromRegions : List RegionInfo → Str
  | [] => []
  | r :: rest =>
    if goContains r.text (chars "都") || goContains r.text (chars "県")
        || goContains r.text (chars "市") || goContains r.text (chars "区") then
      let municipality := goTrimSpace r.text
      if 3 ≤ utf8Len municipality && utf8Len municipality ≤ 20 then municipality
      else extractMunicipalityFromRegions rest
    else extractMunicipalityFromRegions rest

/-- First pass of extractNameFromRegions: find the name label, try the next
region with the label removed, then the labelled region itself; on both
failing, keep scanning. -/
def nameLabelPass : List RegionInfo → Option Str
  | [] => none
  | r :: rest =>
    if goContains r.text (chars "氏名") || goContains r.text (chars "氏 名") then
      let fromNext : Option Str :=
        match rest with
        | next :: _ =>
          let name := goTrimSpace next.text
          let name := replaceAll (chars "氏名") [] name
          let name := goTrimSpace name
          if isValidName name then some name else none
        | [] => none
      match fromNext with
      | some n => some n
      | none =>
        let name := goTrimSpace (replaceAll (chars "氏名") [] r.text)
        if isValidName name then some name else nameLabelPass rest
    else nameLabelPass rest

/-- Fallback pass of extractNameFromRegions: first region either
categorized name or short, digit-free and marker-free, whose trimmed text
passes isValidName. -/
def nameFallbackPass : List RegionInfo → Str
  | [] => []
  | r :: rest =>
    if r.category = "name"
        || (2 ≤ utf8Len r.text && utf8Len r.text ≤ 10
            && !goContainsAny r.text (chars "0123456789年月日都道府県市区町村個人番号")) then
      let name := goTrimSpace r.text
      if isValidName name then name else nameFallbackPass rest
    else nameFallbackPass rest

/-- extractNameFromRegions: label pass first, then the fallback pass. -/
def extractNameFromRegions (regions : List RegionInfo) : Str :=
  match nameLabelPass regions with
  | some n => n
  | none => nameFallbackPass regions

/-- One step of the region dispatch loop of the drivers-license parser:
dates are split on the birth, issuance and expiry markers, in that order,
and each assignment overwrites the previous value of its key. -/
def regionStepDL (data : FieldMap) (r : RegionInfo) : FieldMap :=
  if r.category = "name" then
    if isValidName r.text then fmSet data "name" r.text else data
  else if r.category = "address" then
    if isValidAddress r.text then fmSet data "address" r.text else data
  else if r.category = "date" then
    if isValidDate r.text then
      if goContains r.text (chars "生") then fmSet data "birth_date" r.text
      else if goContains r.text (chars "交付") then fmSet data "issue_date" r.text
      else if goContains r.text (chars "有効") then fmSet data "expiry_date" r.text
      else data
    else data
  else if r.category = "number" then
    if isValidLicenseNumber r.text then fmSet data "license_number" r.text else data
  else data

/-- One step of the region dispatch loop of the individual-number-card
parser: a valid date with the birth marker goes to birth_date, any other
valid date to expiry_date. -/
def regionStepINC (data : FieldMap) (r : RegionInfo) : FieldMap :=
  if r.category = "name" then
    if isValidName r.text then fmSet data "name" r.text else data
  else if r.category = "address" then
    if isValidAddress r.text then fmSet data "address" r.text else data
  else if r.category = "date" then
    if isValidDate r.text then
      if goContains r.text (chars "生") then fmSet data "birth_date" r.text
      else fmSet data "expiry_date" r.text
    else data
  else if r.category = "number" then
    if isValidIndividualNumber r.text then fmSet data "individual_number" r.text else data
  else data

/-- The two enhancement passes run after the dispatch loop; a non-empty
result overwrites the municipality and name fields. -/
def applyEnhancements (regions : List RegionInfo) (data : FieldMap) : FieldMap :=
  let data :=
    let municipality := extractMunicipalityFromRegions regions
    if municipality ≠ [] then fmSet data "municipality" municipality else data
  let name := extractNameFromRegions regions
  if name ≠ [] then fmSet data "name" name else data

/-- parseWithRegionDetection of the drivers-license parser, as a function
of the OCR regions. -/
def parseWithRegionDetectionDL (regions : List RegionInfo) : FieldMap :=
  applyEnhancements regions (regions.foldl regionStepDL [])

/-- parseWithRegionDetection of the individual-number-card parser, as a
function of the OCR regions. -/
def parseWithRegionDetectionINC (regions : List RegionInfo) : FieldMap :=
  applyEnhancements regions (regions.foldl regionStepINC [])

/-! ## Regular expressions of the fallback stage

Every extraction pattern of the repository is a regular expression whose
single capturing group is its final element, so a pattern is embedded as a
pair of expressions: the part before the group and the group itself.
Matching follows the Go regexp package semantics for these patterns:
the match starts as early as possible, and at a given start the
alternatives are tried left to right with greedy quantifiers, the first
success winning. -/

/-- Regular-expression syntax: empty word, literal rune sequence, rune
class given by inclusive ranges with a negation flag, concatenation,
alternation and greedy star. -/
inductive RE where
  | eps : RE
  | lit : Str → RE
  | cls : Bool → List (Char × Char) → RE
  | seq : RE → RE → RE
  | alt : RE → RE → RE
  | star : RE → RE
deriving DecidableEq

/-- Membership of a rune in a class. -/
def inCls (neg : Bool) (ranges : List (Char × Char)) (c : Char) : Bool :=
  let mem := ranges.any (fun p => decide (p.1 ≤ c ∧ c ≤ p.2))
  if neg then !mem else mem

/-- Backtracking matcher in continuation style: `mrun fuel r s k` consumes
a prefix of `s` by `r` and hands each candidate remainder to `k`, in the
backtracking order (alternation left first, star greedy first), returning
the first success.  The recursion is structural on the fuel, which bounds
the depth of the search tree; one unit is spent per subexpression descent
and per star iteration, and every starred subexpression of the embedded
patterns consumes at least a rune per iteration, so the generous fuel
used in tryAt below is never exhausted on them. -/
def mrun : Nat → RE → Str → (Str → Option Str) → Option Str
  | 0, _, _, _ => none
  | _ + 1, .eps, s, k => k s
  | _ + 1, .lit l, s, k => if l.isPrefixOf s then k (s.drop l.length) else none
  | _ + 1, .cls neg ranges, s, k =>
    match s with
    | [] => none
    | c :: rest => if inCls neg ranges c then k rest else none
  | fuel + 1, .seq a b, s, k => mrun fuel a s (fun s1 => mrun fuel b s1 k)
  | fuel + 1, .alt a b, s, k =>
    match mrun fuel a s k with
    | some out => some out
    | none => mrun fuel b s k
  | fuel + 1, .star a, s, k =>
    match mrun fuel a s (fun s1 => mrun fuel (.star a) s1 k) with
    | some out => some out
    | none => k s

/-- The number of syntax nodes of an expression, for the fuel bound. -/
def reSize : RE → Nat
  | .eps => 1
  | .lit _ => 1
  | .cls _ _ => 1
  | .seq a b => reSize a + reSize b + 1
  | .alt a b => reSize a + reSize b + 1
  | .star a => reSize a + 1

/-- Try a pattern at one start position: match the prefix part, then the
capture part, and return the runes the capture part consumed. -/
def tryAt (pre cap : RE) (s : Str) : Option Str :=
  let fuel := (s.length + 2) * (reSize pre + reSize cap + 2)
  mrun fuel pre s (fun rest =>
    mrun fuel cap rest (fun rest2 =>
      some (rest.take (rest.length - rest2.length))))

/-- FindStringSubmatch for a pattern with its capture group at the end:
scan the start positions left to right and return the first capture. -/
def findSubmatch (pre cap : RE) : Str → Option Str
  | [] => tryAt pre cap []
  | c :: rest =>
    match tryAt pre cap (c :: rest) with
    | some out => some out
    | none => findSubmatch pre cap rest

/-- One-or-more, as in the regexp plus operator (greedy). -/
def rePlus (r : RE) : RE := .seq r (.star r)

/-- Zero-or-one, as in the regexp question-mark operator (greedy). -/
def reOpt (r : RE) : RE := .alt r .eps

/-- Exactly n repetitions. -/
def reN (r : RE) : Nat → RE
  | 0 => .eps
  | n + 1 => .seq r (reN r n)

/-- A positive class of single runes. -/
def clsOf (cs : Str) : RE := .cls false (cs.map (fun c => (c, c)))

/-- A negated class of single runes. -/
def nclsOf (cs : Str) : RE := .cls true (cs.map (fun c => (c, c)))

/-- The regexp class backslash-s of the Go regexp package:
tab, newline, form feed, carriage return and space. -/
def spaceCls : RE := clsOf (chars "\t\n\x0c\r ")

/-- The complement class of backslash-s. -/
def notSpaceCls : RE := nclsOf (chars "\t\n\x0c\r ")

/-- The digit class backslash-d. -/
def digitCls : RE := .cls false [('0', '9')]

/-- The class excluding carriage return and newline. -/
def notCRLF : RE := nclsOf (chars "\r\n")

/-- The class excluding newline. -/
def notLF : RE := nclsOf (chars "\n")

/-- The kana and kanji class of the alternate name pattern. -/
def kanjiKanaCls : RE := .cls false [('ァ', 'ヴ'), ('ー', 'ー'), ('一', '龯'), ('ひ', 'ゖ')]

/-- An optional colon, half-width or full-width. -/
def optColon : RE := reOpt (clsOf (chars ":："))

/-- A pattern of the table: its field key, the expression before the
capture group and the capture group expression. -/
structure Pat where
  key : String
  pre : RE
  cap : RE
deriving DecidableEq

/-- Pattern value at a text: run the pattern and trim the capture; an
empty trimmed capture counts as no value in the canonical pass. -/
def patCapture (t : Str) (p : Pat) : Option Str := findSubmatch p.pre p.cap t

/-! ## Pattern tables -/

/-- Shorthand for zero or more white space runes. -/
def sstar : RE := .star spaceCls

/-- The label tail `\s*[:：]?\s*` shared by many patterns. -/
def labelTail : RE := .seq sstar (.seq optColon sstar)

/-- Four digits. -/
def d4 : RE := reN digitCls 4

/-- Twelve digits. -/
def d12 : RE := reN digitCls 12

/-- One or two digits (greedy). -/
def d1or2 : RE := .seq digitCls (reOpt digitCls)

/-- The capture `(\d{4}\s*\d{4}\s*\d{4}|\d{12})` of the numeric-ID
patterns. -/
def numGroupCap : RE :=
  .alt (.seq d4 (.seq sstar (.seq d4 (.seq sstar d4)))) d12

/-- The capture of the alternate birth-date pattern
`([平成|昭和|令和]\d{1,2}年\d{1,2}月\d{1,2}日|\d{4}年\d{1,2}月\d{1,2}日)`
(the leading bracket of the source is a rune class, vertical bars
included). -/
def jpDateAltCap : RE :=
  .alt
    (.seq (clsOf (chars "平成|昭和|令和"))
      (.seq d1or2 (.seq (.lit (chars "年"))
        (.seq d1or2 (.seq (.lit (chars "月")) (.seq d1or2 (.lit (chars "日"))))))))
    (.seq d4
      (.seq (.lit (chars "年"))
        (.seq d1or2 (.seq (.lit (chars "月")) (.seq d1or2 (.lit (chars "日")))))))

/-- The capture of the alternate name pattern
`([ァ-ヴー一-龯ひ-ゖ]+\s+[ァ-ヴー一-龯ひ-ゖ]+)`. -/
def nameAltCap : RE :=
  .seq (rePlus kanjiKanaCls) (.seq (rePlus spaceCls) (rePlus kanjiKanaCls))

/-- initJPDriverLicensePatterns, in the source insertion order.  Go
iterates the pattern map in unspecified order; the order dependence is the
subject of a theorem below. -/
def dlPatterns : List Pat := [
  -- name: `氏名\s*([^\s]+\s+[^\s]+)`
  ⟨"name", .seq (.lit (chars "氏名")) sstar,
    .seq (rePlus notSpaceCls) (.seq (rePlus spaceCls) (rePlus notSpaceCls))⟩,
  -- address: `住所\s*([^\n]+)`
  ⟨"address", .seq (.lit (chars "住所")) sstar, rePlus notLF⟩,
  -- birth_date: `生年月日\s*([^\s]+)`
  ⟨"birth_date", .seq (.lit (chars "生年月日")) sstar, rePlus notSpaceCls⟩,
  -- license_number: `(?:免許証番号|免許証\s*番号)\s*[:：]?\s*(\d{4}\s*\d{4}\s*\d{4}|\d{12})`
  ⟨"license_number",
    .seq (.alt (.lit (chars "免許証番号"))
      (.seq (.lit (chars "免許証")) (.seq sstar (.lit (chars "番号"))))) labelTail,
    numGroupCap⟩,
  -- issue_date: `(?:交付年月日|交付\s*年\s*月\s*日)\s*[:：]?\s*([^\r\n]+)`
  ⟨"issue_date",
    .seq (.alt (.lit (chars "交付年月日"))
      (.seq (.lit (chars "交付")) (.seq sstar (.seq (.lit (chars "年"))
        (.seq sstar (.seq (.lit (chars "月")) (.seq sstar (.lit (chars "日"))))))))) labelTail,
    rePlus notCRLF⟩,
  -- expiry_date: `(?:有効期限|有効\s*期\s*限)\s*[:：]?\s*([^\r\n]+)`
  ⟨"expiry_date",
    .seq (.alt (.lit (chars "有効期限"))
      (.seq (.lit (chars "有効")) (.seq sstar (.seq (.lit (chars "期"))
        (.seq sstar (.lit (chars "限"))))))) labelTail,
    rePlus notCRLF⟩,
  -- license_class: `(?:免許の種類|免許\s*の\s*種類|種類)\s*[:：]?\s*([^\r\n]+)`
  ⟨"license_class",
    .seq (.alt (.lit (chars "免許の種類"))
      (.alt (.seq (.lit (chars "免許")) (.seq sstar (.seq (.lit (chars "の"))
        (.seq sstar (.lit (chars "種類"))))))
        (.lit (chars "種類")))) labelTail,
    rePlus notCRLF⟩,
  -- name_alt: `([ァ-ヴー一-龯ひ-ゖ]+\s+[ァ-ヴー一-龯ひ-ゖ]+)`
  ⟨"name_alt", .eps, nameAltCap⟩,
  -- birth_date_alt
  ⟨"birth_date_alt", .eps, jpDateAltCap⟩]

/-- initIndividualNumberCardPatterns, in the source insertion order. -/
def incPatterns : List Pat := [
  -- name: `(?:氏名|氏\s*名)\s*[:：]?\s*([^\r\n]+)`
  ⟨"name",
    .seq (.alt (.lit (chars "氏名"))
      (.seq (.lit (chars "氏")) (.seq sstar (.lit (chars "名"))))) labelTail,
    rePlus notCRLF⟩,
  -- address: `(?:住所|住\s*所)\s*[:：]?\s*([^\r\n]+)`
  ⟨"address",
    .seq (.alt (.lit (chars "住所"))
      (.seq (.lit (chars "住")) (.seq sstar (.lit (chars "所"))))) labelTail,
    rePlus notCRLF⟩,
  -- birth_date: `(?:生年月日|生\s*年\s*月\s*日)\s*[:：]?\s*([^\r\n]+)`
  ⟨"birth_date",
    .seq (.alt (.lit (chars "生年月日"))
      (.seq (.lit (chars "生")) (.seq sstar (.seq (.lit (chars "年"))
        (.seq sstar (.seq (.lit (chars "月")) (.seq sstar (.lit (chars "日"))))))))) labelTail,
    rePlus notCRLF⟩,
  -- gender: `(?:性別|性\s*別)\s*[:：]?\s*([男女])`
  ⟨"gender",
    .seq (.alt (.lit (chars "性別"))
      (.seq (.lit (chars "性")) (.seq sstar (.lit (chars "別"))))) labelTail,
    clsOf (chars "男女")⟩,
  -- individual_number: `(?:個人番号|個人\s*番号)\s*[:：]?\s*(\d{4}\s*\d{4}\s*\d{4}|\d{12})`
  ⟨"individual_number",
    .seq (.alt (.lit (chars "個人番号"))
      (.seq (.lit (chars "個人")) (.seq sstar (.lit (chars "番号"))))) labelTail,
    numGroupCap⟩,
  -- issue_date: `(?:交付年月日|交付\s*年\s*月\s*日)\s*[:：]?\s*([^\r\n]+)`
  ⟨"issue_date",
    .seq (.alt (.lit (chars "交付年月日"))
      (.seq (.lit (chars "交付")) (.seq sstar (.seq (.lit (chars "年"))
        (.seq sstar (.seq (.lit (chars "月")) (.seq sstar (.lit (chars "日"))))))))) labelTail,
    rePlus notCRLF⟩,
  -- expiry_date: `(?:有効期限|有効\s*期\s*限)\s*[:：]?\s*([^\r\n]+)`
  ⟨"expiry_date",
    .seq (.alt (.lit (chars "有効期限"))
      (.seq (.lit (chars "有効")) (.seq sstar (.seq (.lit (chars "期"))
        (.seq sstar (.lit (chars "限"))))))) labelTail,
    rePlus notCRLF⟩,
  -- name_alt: `([ァ-ヴー一-龯ひ-ゖ]+\s+[ァ-ヴー一-龯ひ-ゖ]+)`
  ⟨"name_alt", .eps, nameAltCap⟩,
  -- birth_date_alt
  ⟨"birth_date_alt", .eps, jpDateAltCap⟩,
  -- individual_number_alt: `(\d{4}-\d{4}-\d{4})`
  ⟨"individual_number_alt", .eps,
    .seq d4 (.seq (.lit (chars "-")) (.seq d4 (.seq (.lit (chars "-")) d4)))⟩,
  -- municipality: `([^都道府県]+[都道府県][^市区町村]+[市区町村])`
  ⟨"municipality", .eps,
    .seq (rePlus (nclsOf (chars "都道府県")))
      (.seq (clsOf (chars "都道府県"))
        (.seq (rePlus (nclsOf (chars "市区町村"))) (clsOf (chars "市区町村"))))⟩]

/-! ## Fallback stage: parseTextWithRegex -/

/-- One iteration of the canonical pattern loop: on a match, store the
trimmed capture under the field key when it is non-empty. -/
def applyPattern (t : Str) (data : FieldMap) (p : Pat) : FieldMap :=
  match patCapture t p with
  | some m =>
    let value := goTrimSpace m
    if value ≠ [] then fmSet data p.key value else data
  | none => data

/-- The canonical pass: every pattern of the table applied in the given
iteration order, starting from the empty map. -/
def canonicalPass (pats : List Pat) (t : Str) : FieldMap :=
  pats.foldl (applyPattern t) []

/-- One alternate-pattern step: consult the alternate key only when the
field is still absent, and store the trimmed capture. -/
def altStep (pats : List Pat) (t : Str) (data : FieldMap) (field altKey : String) : FieldMap :=
  if fmHas data field then data
  else
    match pats.find? (fun p => p.key = altKey) with
    | some p =>
      match patCapture t p with
      | some m => fmSet data field (goTrimSpace m)
      | none => data
    | none => data

/-! ## Normalization (postProcessExtractedData) -/

theorem replaceAllF_length_le (pat rep : Str) (hle : rep.length ≤ pat.length) :
    ∀ f s, (replaceAllF pat rep f s).length ≤ s.length := by
  intro f
  induction f with
  | zero =>
    intro s
    cases s <;> simp [replaceAllF]
  | succ f ih =>
    intro s
    match s with
    | [] => simp [replaceAllF]
    | c :: rest =>
      simp only [replaceAllF]
      by_cases h : pat ≠ [] ∧ pat.isPrefixOf (c :: rest)
      · rw [if_pos h]
        have hp := (List.isPrefixOf_iff_prefix.mp h.2).length_le
        have hd : (List.drop pat.length (c :: rest)).length = (c :: rest).length - pat.length :=
          List.length_drop _ _
        have := ih (List.drop pat.length (c :: rest))
        simp only [List.length_append, List.length_cons] at *
        omega
      · rw [if_neg h]
        have := ih rest
        simp only [List.length_cons]
        omega

theorem replaceAll_length_le (pat rep : Str) (hle : rep.length ≤ pat.length) (s : Str) :
    (replaceAll pat rep s).length ≤ s.length :=
  replaceAllF_length_le pat rep hle _ s

theorem replaceAll_length_lt (pat rep : Str) (hlt : rep.length < pat.length) :
    ∀ s, containsSub pat s = true → (replaceAll pat rep s).length < s.length := by
  have main : ∀ f s, s.length ≤ f → containsSub pat s = true →
      (replaceAllF pat rep f s).length < s.length := by
    intro f
    induction f with
    | zero =>
      intro s hf hc
      have : s = [] := List.eq_nil_of_length_eq_zero (Nat.le_zero.mp hf)
      subst this
      simp only [containsSub] at hc
      have hp : pat.length ≤ ([] : Str).length := (List.isPrefixOf_iff_prefix.mp hc).length_le
      simp only [List.length_nil] at hp
      omega
    | succ f ih =>
      intro s hf hc
      match s with
      | [] =>
        simp only [containsSub] at hc
        have hp : pat.length ≤ ([] : Str).length := (List.isPrefixOf_iff_prefix.mp hc).length_le
        simp only [List.length_nil] at hp
        omega
      | c :: rest =>
        simp only [replaceAllF]
        by_cases h : pat ≠ [] ∧ pat.isPrefixOf (c :: rest)
        · rw [if_pos h]
          have hp := (List.isPrefixOf_iff_prefix.mp h.2).length_le
          have hb := replaceAllF_length_le pat rep (Nat.le_of_lt hlt) f
            (List.drop pat.length (c :: rest))
          have hd : (List.drop pat.length (c :: rest)).length = (c :: rest).length - pat.length :=
            List.length_drop _ _
          simp only [List.length_append, List.length_cons] at *
          omega
        · rw [if_neg h]
          have hpat : pat ≠ [] := by
            intro he
            rw [he] at hlt
            simp at hlt
          have hcr : containsSub pat rest = true := by
            simp only [containsSub, Bool.or_eq_true] at hc
            rcases hc with hp | hc
            · exact absurd ⟨hpat, hp⟩ h
            · exact hc
          have hlen : rest.length ≤ f := by
            simp only [List.length_cons] at hf
            omega
          have := ih rest hlen hcr
          simp only [List.length_cons]
          omega
  intro s hc
  exact main (s.length + 1) s (Nat.le_succ _) hc

/-- The address clean-up loop, with structural fuel: collapse runs of
blanks by replacing double blanks with single ones until none is left.
Each replacement strictly shortens the text (replaceAll_length_lt), so
fuel one more than the length is never exhausted. -/
def collapseSpacesF : Nat → Str → Str
  | 0, s => s
  | f + 1, s =>
    if goContains s (chars "  ") then
      collapseSpacesF f (replaceAll (chars "  ") (chars " ") s)
    else s

/-- The address clean-up loop of postProcessExtractedData. -/
def collapseSpaces (s : Str) : Str := collapseSpacesF (s.length + 1) s

/-- The four-four-four regrouping `cleaned[:4]+"-"+cleaned[4:8]+"-"+cleaned[8:12]`.
The source slices bytes; this is rune slicing, which coincides whenever the
byte offsets 4 and 8 fall on rune boundaries (always the case on the
all-ASCII values the guard is meant for). -/
def group444 (cleaned : Str) : Str :=
  cleaned.take 4 ++ chars "-" ++ (cleaned.drop 4).take 4 ++ chars "-" ++ (cleaned.drop 8).take 4

/-- The license-number branch of the drivers-license postProcess: collapse
double blanks once and trim.  No hyphen regrouping happens here. -/
def normalizeLicenseNumberStep (data : FieldMap) : FieldMap :=
  match fmGet data "license_number" with
  | some licenseNumber =>
    let cleaned := replaceAll (chars "  ") (chars " ") licenseNumber
    fmSet data "license_number" (goTrimSpace cleaned)
  | none => data

/-- The individual-number branch of the individual-number-card postProcess:
strip blanks and hyphens; on byte length exactly 12, regroup as
four-four-four. -/
def normalizeIndividualNumberStep (data : FieldMap) : FieldMap :=
  match fmGet data "individual_number" with
  | some individualNumber =>
    let cleaned := replaceAll (chars " ") [] individualNumber
    let cleaned := replaceAll (chars "-") [] cleaned
    if utf8Len cleaned = 12 then fmSet data "individual_number" (group444 cleaned)
    else data
  | none => data

/-- The address branch of both postProcess functions: newlines and tabs to
blanks, collapse blank runs, trim. -/
def normalizeAddressStep (data : FieldMap) : FieldMap :=
  match fmGet data "address" with
  | some address =>
    let cleaned := replaceAll (chars "\n") (chars " ") address
    let cleaned := replaceAll (chars "\t") (chars " ") cleaned
    let cleaned := collapseSpaces cleaned
    fmSet data "address" (goTrimSpace cleaned)
  | none => data

/-- The name value normalization of both postProcess functions: trim; with
no inner blank and rune count at least 4, insert a blank after the second
rune, or the third when the rune count exceeds 5. -/
def normalizeNameValue (name : Str) : Str :=
  let cleaned := goTrimSpace name
  if !goContains cleaned (chars " ") && cleaned.length > 2 then
    if cleaned.length ≥ 4 then
      let familyNameEnd := if cleaned.length > 5 then 3 else 2
      cleaned.take familyNameEnd ++ chars " " ++ cleaned.drop familyNameEnd
    else cleaned
  else cleaned

/-- The name branch of both postProcess functions. -/
def normalizeNameStep (data : FieldMap) : FieldMap :=
  match fmGet data "name" with
  | some name => fmSet data "name" (normalizeNameValue name)
  | none => data

/-- The gender branch of the individual-number-card postProcess: map the
written-out or single-rune forms to the canonical single rune; any other
value is left as it was stored. -/
def normalizeGenderStep (data : FieldMap) : FieldMap :=
  match fmGet data "gender" with
  | some gender =>
    let cleaned := goTrimSpace gender
    if cleaned = chars "男性" ∨ cleaned = chars "男" then fmSet data "gender" (chars "男")
    else if cleaned = chars "女性" ∨ cleaned = chars "女" then fmSet data "gender" (chars "女")
    else data
  | none => data

/-- postProcessExtractedData of the drivers-license parser: license
number, address, then name. -/
def postProcessExtractedDataDL (data : FieldMap) : FieldMap :=
  normalizeNameStep (normalizeAddressStep (normalizeLicenseNumberStep data))

/-- postProcessExtractedData of the individual-number-card parser:
individual number, address, name, then gender. -/
def postProcessExtractedDataINC (data : FieldMap) : FieldMap :=
  normalizeGenderStep (normalizeNameStep (normalizeAddressStep (normalizeIndividualNumberStep data)))

/-- parseTextWithRegex of the drivers-license parser: canonical pass in
the given table order, alternate passes for name and birth date, then
postProcess. -/
def parseTextWithRegexDL (pats : List Pat) (ocrText : Str) : FieldMap :=
  let data := canonicalPass pats ocrText
  let data := altStep pats ocrText data "name" "name_alt"
  let data := altStep pats ocrText data "birth_date" "birth_date_alt"
  postProcessExtractedDataDL data

/-- parseTextWithRegex of the individual-number-card parser: canonical
pass, alternate passes for name, birth date and individual number, then
postProcess. -/
def parseTextWithRegexINC (pats : List Pat) (ocrText : Str) : FieldMap :=
  let data := canonicalPass pats ocrText
  let data := altStep pats ocrText data "name" "name_alt"
  let data := altStep pats ocrText data "birth_date" "birth_date_alt"
  let data := altStep pats ocrText data "individual_number" "individual_number_alt"
  postProcessExtractedDataINC data

/-! ## Validation (validateExtractedData) -/

/-- The required-field loop shared by both validators. -/
def checkRequired (data : FieldMap) : List String → Option String
  | [] => none
  | field :: rest =>
    match fmGet data field with
    | none => some ("required field " ++ field ++ " is missing or empty")
    | some value =>
      if goTrimSpace value = [] then
        some ("required field " ++ field ++ " is missing or empty")
      else checkRequired data rest

/-- validateExtractedData of the drivers-license parser: name required;
a present license number must have byte length 12 after removing blanks
(hyphens are not removed, digits are not checked). -/
def validateExtractedDataDL (data : FieldMap) : Option String :=
  match checkRequired data ["name"] with
  | some e => some e
  | none =>
    match fmGet data "license_number" with
    | some licenseNumber =>
      let cleanNumber := replaceAll (chars " ") [] licenseNumber
      if utf8Len cleanNumber ≠ 12 then some "invalid license number format" else none
    | none => none

/-- The gender check of the individual-number-card validator: a present
gender must be exactly the canonical male or female rune. -/
def genderCheck (data : FieldMap) : Option String :=
  match fmGet data "gender" with
  | some gender =>
    if gender ≠ chars "男" ∧ gender ≠ chars "女" then some "invalid gender value" else none
  | none => none

/-- validateExtractedData of the individual-number-card parser: name
required; a present individual number must have byte length 12 after
removing blanks and hyphens (digits are not checked); a present gender
must be canonical. -/
def validateExtractedDataINC (data : FieldMap) : Option String :=
  match checkRequired data ["name"] with
  | some e => some e
  | none =>
    match fmGet data "individual_number" with
    | some individualNumber =>
      let cleanNumber := replaceAll (chars " ") [] individualNumber
      let cleanNumber := replaceAll (chars "-") [] cleanNumber
      if utf8Len cleanNumber ≠ 12 then some "invalid individual number format"
      else genderCheck data
    | none => genderCheck data

/-! ## Parse: the two-stage state machine

The external effects are inputs: `regionOut` is what ExtractRegions
returned (the regions, or its error), `ocrOut` what the flat-text
extraction returned. -/

/-- Steps 2-4 of Parse for the drivers license: flat OCR text, regex
extraction, validation; both failures are surfaced as errors. -/
def fallbackStageDL (pats : List Pat) (ocrOut : Except String Str) : Except String FieldMap :=
  match ocrOut with
  | .error e => .error ("failed to extract text via OCR: " ++ e)
  | .ok ocrText =>
    let extractedData := parseTextWithRegexDL pats ocrText
    match validateExtractedDataDL extractedData with
    | some e => .error ("validation failed for drivers license data: " ++ e)
    | none => .ok extractedData

/-- Steps 2-4 of Parse for the individual number card. -/
def fallbackStageINC (pats : List Pat) (ocrOut : Except String Str) : Except String FieldMap :=
  match ocrOut with
  | .error e => .error ("failed to extract text via OCR: " ++ e)
  | .ok ocrText =>
    let extractedData := parseTextWithRegexINC pats ocrText
    match validateExtractedDataINC extractedData with
    | some e => .error ("validation failed for individual number card data: " ++ e)
    | none => .ok extractedData

/-- Parse of the drivers-license parser: the region stage result is kept
only when region extraction succeeded, produced a non-empty map and that
map validates; in every other case the flow falls through to the fallback
stage. -/
def ParseDL (pats : List Pat) (regionOut : Except String (List RegionInfo))
    (ocrOut : Except String Str) : Except String FieldMap :=
  let step1 : Option FieldMap :=
    match regionOut with
    | .ok regions =>
      let extractedData := parseWithRegionDetectionDL regions
      if 0 < extractedData.length then
        match validateExtractedDataDL extractedData with
        | none => some extractedData
        | some _ => none
      else none
    | .error _ => none
  match step1 with
  | some extractedData => .ok extractedData
  | none =>
    match ocrOut with
    | .error e => .error ("failed to extract text via OCR: " ++ e)
    | .ok ocrText =>
      let extractedData := parseTextWithRegexDL pats ocrText
      match validateExtractedDataDL extractedData with
      | some e => .error ("validation failed for drivers license data: " ++ e)
      | none => .ok extractedData

/-- Parse of the individual-number-card parser. -/
def ParseINC (pats : List Pat) (regionOut : Except String (List RegionInfo))
    (ocrOut : Except String Str) : Except String FieldMap :=
  let step1 : Option FieldMap :=
    match regionOut with
    | .ok regions =>
      let extractedData := parseWithRegionDetectionINC regions
      if 0 < extractedData.length then
        match validateExtractedDataINC extractedData with
        | none => some extractedData
        | some _ => none
      else none
    | .error _ => none
  match step1 with
  | some extractedData => .ok extractedData
  | none =>
    match ocrOut with
    | .error e => .error ("failed to extract text via OCR: " ++ e)
    | .ok ocrText =>
      let extractedData := parseTextWithRegexINC pats ocrText
      match validateExtractedDataINC extractedData with
      | some e => .error ("validation failed for individual number card data: " ++ e)
      | none => .ok extractedData

/-! ## Claims -/

/-- C7 counterexample: the classifier does not recognize the fu-prefecture
rune or the town rune as address markers: a fragment with the prefecture
marker 府 (and no date markers) is classified name, not address, and so is
one with the town marker 町. -/
theorem c7_counterexample :
    goContains (chars "大阪府") (chars "府") = true ∧
    goContains (chars "大阪府") (chars "年") = false ∧
    goContains (chars "大阪府") (chars "月") = false ∧
    categorizeText (chars "大阪府") = "name" ∧
    goContains (chars "芝町") (chars "町") = true ∧
    categorizeText (chars "芝町") = "name" := by decide

/-- C7 amended: the five classification rules hold with first match
winning, but the address markers are exactly the runes 都, 県, 市 and 区:
a fragment whose only administrative marker is prefecture-level 府 or
town-level 町 falls through to the name rule (lengths are byte lengths). -/
theorem c7_amended :
    (∀ s, goContains s (chars "年") = true → goContains s (chars "月") = true →
      categorizeText s = "date") ∧
    (∀ s, ¬(goContains s (chars "年") = true ∧ goContains s (chars "月") = true) →
      goContains s (chars "都") = true ∨ goContains s (chars "県") = true ∨
        goContains s (chars "市") = true ∨ goContains s (chars "区") = true →
      categorizeText s = "address") ∧
    (∀ s, ¬(goContains s (chars "年") = true ∧ goContains s (chars "月") = true) →
      goContains s (chars "都") = false → goContains s (chars "県") = false →
      goContains s (chars "市") = false → goContains s (chars "区") = false →
      2 ≤ utf8Len s → utf8Len s ≤ 10 → goContainsAny s (chars "0123456789") = false →
      categorizeText s = "name") ∧
    (∀ s, ¬(goContains s (chars "年") = true ∧ goContains s (chars "月") = true) →
      goContains s (chars "都") = false → goContains s (chars "県") = false →
      goContains s (chars "市") = false → goContains s (chars "区") = false →
      goContainsAny s (chars "0123456789") = true → 4 ≤ utf8Len s →
      categorizeText s = "number") := by
  have hdate : ∀ s : Str,
      ¬(goContains s (chars "年") = true ∧ goContains s (chars "月") = true) →
      ¬((goContains s (chars "年") && goContains s (chars "月")) = true) := by
    intro s h1 hb
    rw [Bool.and_eq_true] at hb
    exact h1 hb
  refine ⟨?_, ?_, ?_, ?_⟩
  · intro s h1 h2
    simp only [categorizeText]
    rw [if_pos (by rw [Bool.and_eq_true]; exact ⟨h1, h2⟩)]
  · intro s h1 h2
    simp only [categorizeText]
    rw [if_neg (hdate s h1), if_pos (by
      rw [Bool.or_eq_true, Bool.or_eq_true, Bool.or_eq_true]
      tauto)]
  · intro s h1 h2 h3 h4 h5 h6 h7 h8
    simp only [categorizeText]
    rw [if_neg (hdate s h1), if_neg (by simp [h2, h3, h4, h5]),
      if_pos (by simp [h6, h7, h8])]
  · intro s h1 h2 h3 h4 h5 h6 h7
    simp only [categorizeText]
    rw [if_neg (hdate s h1), if_neg (by simp [h2, h3, h4, h5]),
      if_neg (by simp [h6]), if_pos (by simp [h6, h7])]

/-- The digit test of the source loops agrees with the standard digit
predicate. -/
theorem goIsDigit_eq : goIsDigit = Char.isDigit := by
  funext c
  simp only [goIsDigit, Char.isDigit]
  have e0 : ('0' : Char).val.toBitVec.toNat = 48 := rfl
  have e9 : ('9' : Char).val.toBitVec.toNat = 57 := rfl
  have e48 : ((48 : UInt32)).toBitVec.toNat = 48 := rfl
  have e57 : ((57 : UInt32)).toBitVec.toNat = 57 := rfl
  by_cases h1 : c < '0'
  · rw [if_pos (Or.inl h1)]
    have : ¬(c.val ≥ 48) := by
      simp only [Char.lt_def, UInt32.lt_def, BitVec.lt_def] at h1
      simp only [ge_iff_le, UInt32.le_def, BitVec.le_def]
      omega
    simp [this]
  · by_cases h2 : '9' < c
    · rw [if_pos (Or.inr h2)]
      have : ¬(c.val ≤ 57) := by
        simp only [Char.lt_def, UInt32.lt_def, BitVec.lt_def] at h2
        simp only [UInt32.le_def, BitVec.le_def]
        omega
      simp [this]
    · rw [if_neg (by tauto)]
      simp only [Char.lt_def, UInt32.lt_def, BitVec.lt_def, not_lt] at h1 h2
      have g1 : c.val ≥ 48 := by
        simp only [ge_iff_le, UInt32.le_def, BitVec.le_def]
        omega
      have g2 : c.val ≤ 57 := by
        simp only [UInt32.le_def, BitVec.le_def]
        omega
      simp [g1, g2]

/-- A digit rune occupies one byte. -/
theorem utf8Size_of_isDigit (c : Char) (h : c.isDigit = true) : c.utf8Size = 1 := by
  simp only [Char.isDigit, Bool.and_eq_true, decide_eq_true_eq] at h
  obtain ⟨h1, h2⟩ := h
  simp only [ge_iff_le, UInt32.le_def, BitVec.le_def] at h1 h2
  have e48 : ((48 : UInt32)).toBitVec.toNat = 48 := rfl
  have e57 : ((57 : UInt32)).toBitVec.toNat = 57 := rfl
  have e127 : (UInt32.ofNatCore 127 Char.utf8Size.proof_1).toBitVec.toNat = 127 := rfl
  simp only [Char.utf8Size]
  rw [if_pos (by simp only [UInt32.le_def, BitVec.le_def]; omega)]

/-- On all-digit text the byte length is the rune count. -/
theorem utf8Len_of_all_digits (s : Str) (h : s.all Char.isDigit = true) :
    utf8Len s = s.length := by
  induction s with
  | nil => rfl
  | cons c rest ih =>
    simp only [List.all_cons, Bool.and_eq_true] at h
    simp only [utf8Len, List.map_cons, List.sum_cons, List.length_cons]
    rw [utf8Size_of_isDigit c h.1]
    have := ih h.2
    simp only [utf8Len] at this
    omega

/-- The rune count never exceeds the byte length. -/
theorem length_le_utf8Len (s : Str) : s.length ≤ utf8Len s := by
  induction s with
  | nil => simp [utf8Len]
  | cons c rest ih =>
    simp only [utf8Len, List.map_cons, List.sum_cons, List.length_cons] at *
    have := Char.utf8Size_pos c
    omega

/-- C5 counterexample: the claim says the validators strip whitespace and
hyphens, so both should accept a hyphen-grouped 12-digit value; in fact
isValidLicenseNumber strips only blanks and isValidIndividualNumber strips
nothing, so the grouped form is rejected by both, and the blank-separated
form by the individual-number validator. -/
theorem c5_counterexample :
    isValidLicenseNumber (chars "1234-5678-9012") = false ∧
    isValidIndividualNumber (chars "1234-5678-9012") = false ∧
    isValidIndividualNumber (chars "1234 5678 9012") = false := by decide

/-- C5 amended: isValidIndividualNumber accepts exactly the strings of
twelve decimal digits, with no stripping at all; isValidLicenseNumber
removes only ASCII blanks and then requires exactly twelve decimal
digits.  Hyphens are never removed, so hyphen-grouped values fail both. -/
theorem c5_amended :
    (∀ s : Str, isValidIndividualNumber s = true ↔
      s.length = 12 ∧ s.all Char.isDigit = true) ∧
    (∀ s : Str, isValidLicenseNumber s = true ↔
      (replaceAll (chars " ") [] s).length = 12 ∧
        (replaceAll (chars " ") [] s).all Char.isDigit = true) := by
  have main : ∀ s : Str,
      (if utf8Len s ≠ 12 then false else s.all goIsDigit) = true ↔
        s.length = 12 ∧ s.all Char.isDigit = true := by
    intro s
    rw [goIsDigit_eq]
    by_cases h : utf8Len s ≠ 12
    · rw [if_pos h]
      constructor
      · intro hf
        exact absurd hf (Bool.false_ne_true)
      · intro ⟨hl, hd⟩
        exact absurd (by rw [utf8Len_of_all_digits s hd, hl]) h
    · rw [if_neg h]
      push_neg at h
      constructor
      · intro hall
        exact ⟨by rw [← utf8Len_of_all_digits s hall, h], hall⟩
      · intro ⟨_, hall⟩
        exact hall
  exact ⟨fun s => main s, fun s => main (replaceAll (chars " ") [] s)⟩

/-- The required-field loop on the shared required list succeeds exactly
when the name field is present and non-blank. -/
theorem checkRequired_name_iff (m : FieldMap) :
    checkRequired m ["name"] = none ↔
      (∃ v, fmGet m "name" = some v ∧ goTrimSpace v ≠ []) := by
  cases hn : fmGet m "name" with
  | none => simp [checkRequired, hn]
  | some v =>
    by_cases ht : goTrimSpace v = [] <;> simp [checkRequired, hn, ht]

/-- Characterization of the drivers-license validator: name present and
non-blank, and a present license number reduces to byte length 12 after
removing blanks only. -/
theorem validateDL_none_iff (m : FieldMap) :
    validateExtractedDataDL m = none ↔
      (∃ v, fmGet m "name" = some v ∧ goTrimSpace v ≠ []) ∧
      ∀ v, fmGet m "license_number" = some v →
        utf8Len (replaceAll (chars " ") [] v) = 12 := by
  rw [← checkRequired_name_iff]
  simp only [validateExtractedDataDL]
  cases hr : checkRequired m ["name"] with
  | some e => simp
  | none =>
    cases hl : fmGet m "license_number" with
    | none => simp
    | some lv =>
      by_cases h12 : utf8Len (replaceAll (chars " ") [] lv) = 12
      · simp [h12]
      · simp [h12]

/-- Characterization of the individual-number-card validator: name
present and non-blank, a present individual number reduces to byte length
12 after removing blanks and hyphens, and a present gender is canonical. -/
theorem validateINC_none_iff (m : FieldMap) :
    validateExtractedDataINC m = none ↔
      (∃ v, fmGet m "name" = some v ∧ goTrimSpace v ≠ []) ∧
      (∀ v, fmGet m "individual_number" = some v →
        utf8Len (replaceAll (chars "-") [] (replaceAll (chars " ") [] v)) = 12) ∧
      (∀ v, fmGet m "gender" = some v → v = chars "男" ∨ v = chars "女") := by
  rw [← checkRequired_name_iff]
  have hgender : genderCheck m = none ↔
      (∀ v, fmGet m "gender" = some v → v = chars "男" ∨ v = chars "女") := by
    cases hg : fmGet m "gender" with
    | none => simp [genderCheck, hg]
    | some gv =>
      by_cases hc : gv ≠ chars "男" ∧ gv ≠ chars "女"
      · simp [genderCheck, hg, hc]
      · simp [genderCheck, hg, hc]
        rw [Classical.not_and_iff_or_not_not] at hc
        simp only [not_not] at hc
        exact hc
  simp only [validateExtractedDataINC]
  cases hr : checkRequired m ["name"] with
  | some e => simp
  | none =>
    cases hl : fmGet m "individual_number" with
    | none =>
      simp only
      rw [hgender]
      simp
    | some lv =>
      dsimp only
      by_cases h12 : utf8Len (replaceAll (chars "-") [] (replaceAll (chars " ") [] lv)) = 12
      · rw [if_neg (not_ne_iff.mpr h12), hgender]
        constructor
        · intro h
          refine ⟨rfl, fun v hv => ?_, h⟩
          cases hv
          exact h12
        · intro h
          exact h.2.2
      · rw [if_pos h12]
        constructor
        · intro h
          exact absurd h (by simp)
        · intro h
          exact absurd (h.2.1 lv rfl) h12

/-- C4 counterexample: the drivers-license validator strips only blanks,
not hyphens, so the grouped form dddd-dddd-dddd (12 digits plus two
hyphens) is rejected; and neither validator checks that the remaining
runes are digits, so a 12-letter individual number is accepted. -/
theorem c4_counterexample :
    validateExtractedDataDL
      [("name", chars "山田"), ("license_number", chars "1234-5678-9012")] ≠ none ∧
    validateExtractedDataINC
      [("name", chars "山田"), ("individual_number", chars "abcdefghijkl")] = none := by
  decide

/-- C4 amended: with the required name present and non-blank, the
drivers-license validator errors on a present license number exactly when
its byte length after removing blanks only differs from 12, and the
individual-number-card validator (gender absent) errors on a present
individual number exactly when its byte length after removing blanks and
hyphens differs from 12; digits are never checked, so the grouped form
passes only the individual-number-card validator. -/
theorem c4_amended (m : FieldMap) (v0 v : Str)
    (hname : fmGet m "name" = some v0) (hnb : goTrimSpace v0 ≠ []) :
    (fmGet m "license_number" = some v →
      (validateExtractedDataDL m = none ↔
        utf8Len (replaceAll (chars " ") [] v) = 12)) ∧
    (fmGet m "individual_number" = some v → fmGet m "gender" = none →
      (validateExtractedDataINC m = none ↔
        utf8Len (replaceAll (chars "-") [] (replaceAll (chars " ") [] v)) = 12)) := by
  constructor
  · intro hv
    rw [validateDL_none_iff]
    constructor
    · intro h
      exact h.2 v hv
    · intro h
      refine ⟨⟨v0, hname, hnb⟩, fun w hw => ?_⟩
      rw [hv] at hw
      cases hw
      exact h
  · intro hv hg
    rw [validateINC_none_iff]
    constructor
    · intro h
      exact h.2.1 v hv
    · intro h
      refine ⟨⟨v0, hname, hnb⟩, fun w hw => ?_, fun w hw => ?_⟩
      · rw [hv] at hw
        cases hw
        exact h
      · rw [hg] at hw
        cases hw

/-- C4 witness: the grouped value passes the individual-number-card
validator and a plain 12-digit value passes the drivers-license one. -/
theorem c4_witness :
    validateExtractedDataINC
      [("name", chars "山田"), ("individual_number", chars "1234-5678-9012")] = none :=
  ((c4_amended [("name", chars "山田"), ("individual_number", chars "1234-5678-9012")]
    (chars "山田") (chars "1234-5678-9012") (by decide) (by decide)).2
    (by decide) (by decide)).mpr (by decide)

/-- C8 counterexample: optional-field content does make validation fail:
with the required name present and non-blank, a gender value outside the
canonical pair fails the individual-number-card validator, and a
three-rune license number fails the drivers-license validator. -/
theorem c8_counterexample :
    checkRequired [("name", chars "山田"), ("gender", chars "X")] ["name"] = none ∧
    validateExtractedDataINC [("name", chars "山田"), ("gender", chars "X")] ≠ none ∧
    checkRequired [("name", chars "山田"), ("license_number", chars "abc")] ["name"] = none ∧
    validateExtractedDataDL [("name", chars "山田"), ("license_number", chars "abc")] ≠ none := by
  decide

/-- C8 amended: validation succeeds exactly when every required field
(name, for both document types) is present and non-blank AND every present
optional format-checked field passes its format check: byte length 12
after stripping (blanks for the license number, blanks and hyphens for the
individual number) and the canonical gender pair. -/
theorem c8_amended (m : FieldMap) :
    (validateExtractedDataDL m = none ↔
      (∃ v, fmGet m "name" = some v ∧ goTrimSpace v ≠ []) ∧
      ∀ v, fmGet m "license_number" = some v →
        utf8Len (replaceAll (chars " ") [] v) = 12) ∧
    (validateExtractedDataINC m = none ↔
      (∃ v, fmGet m "name" = some v ∧ goTrimSpace v ≠ []) ∧
      (∀ v, fmGet m "individual_number" = some v →
        utf8Len (replaceAll (chars "-") [] (replaceAll (chars " ") [] v)) = 12) ∧
      (∀ v, fmGet m "gender" = some v → v = chars "男" ∨ v = chars "女")) :=
  ⟨validateDL_none_iff m, validateINC_none_iff m⟩

/-- Removing a single rune by replaceAll is filtering it out. -/
theorem replaceAll_singleton (a : Char) (s : Str) :
    replaceAll [a] [] s = s.filter (fun c => c != a) := by
  have main : ∀ (f : Nat) (s0 : Str), s0.length ≤ f →
      replaceAllF [a] [] f s0 = s0.filter (fun c => c != a) := by
    intro f
    induction f with
    | zero =>
      intro s0 hf
      have : s0 = [] := List.eq_nil_of_length_eq_zero (Nat.le_zero.mp hf)
      subst this
      rfl
    | succ f ih =>
      intro s0 hf
      match s0 with
      | [] => rfl
      | c :: rest =>
        simp only [replaceAllF]
        have hlen : rest.length ≤ f := by
          simp only [List.length_cons] at hf
          omega
        by_cases hac : a = c
        · subst hac
          rw [if_pos (by simp [List.isPrefixOf])]
          simp [ih rest hlen]
        · rw [if_neg (by simp [List.isPrefixOf, hac])]
          simp [List.filter_cons, Ne.symm hac, ih rest hlen]
  exact main (s.length + 1) s (Nat.le_succ _)


/-- replaceAll without an occurrence is the identity. -/
theorem replaceAll_of_not_contains (pat rep : Str) :
    ∀ s, containsSub pat s = false → replaceAll pat rep s = s := by
  have main : ∀ (f : Nat) (s0 : Str), s0.length ≤ f → containsSub pat s0 = false →
      replaceAllF pat rep f s0 = s0 := by
    intro f
    induction f with
    | zero =>
      intro s0 hf _
      have : s0 = [] := List.eq_nil_of_length_eq_zero (Nat.le_zero.mp hf)
      subst this
      rfl
    | succ f ih =>
      intro s0 hf hc
      match s0 with
      | [] => rfl
      | c :: rest =>
        simp only [containsSub, Bool.or_eq_false_iff] at hc
        simp only [replaceAllF]
        rw [if_neg (fun hp => by rw [hp.2] at hc; simp at hc)]
        have hlen : rest.length ≤ f := by
          simp only [List.length_cons] at hf
          omega
        rw [ih rest hlen hc.2]
  intro s hc
  exact main (s.length + 1) s (Nat.le_succ _) hc

/-- A text with no blank rune has no double-blank occurrence. -/
theorem not_contains_doubleblank (s : Str) (h : ∀ c ∈ s, c ≠ ' ') :
    containsSub (chars "  ") s = false := by
  induction s with
  | nil => rfl
  | cons c rest ih =>
    simp only [containsSub, Bool.or_eq_false_iff]
    constructor
    · have hc : c ≠ ' ' := h c (List.mem_cons_self c rest)
      rw [Bool.eq_false_iff]
      intro hp
      obtain ⟨t, ht⟩ := List.isPrefixOf_iff_prefix.mp hp
      have : ' ' = c := by
        have := congrArg (fun l => l.head?) ht
        simpa [chars] using this
      exact hc this.symm
    · exact ih (fun c hc => h c (List.mem_cons_of_mem _ hc))

/-- dropWhile is the identity when no rune satisfies the predicate. -/
theorem dropWhile_eq_self_of (p : Char → Bool) (s : Str) (h : ∀ c ∈ s, p c = false) :
    s.dropWhile p = s := by
  cases s with
  | nil => rfl
  | cons c rest =>
    simp [List.dropWhile, h c (List.mem_cons_self c rest)]

/-- TrimSpace is the identity on text without white space. -/
theorem goTrimSpace_of_no_space (s : Str) (h : ∀ c ∈ s, goSpace c = false) :
    goTrimSpace s = s := by
  unfold goTrimSpace
  rw [dropWhile_eq_self_of goSpace s h,
    dropWhile_eq_self_of goSpace s.reverse (fun c hc => h c (List.mem_reverse.mp hc)),
    List.reverse_reverse]
/-- A digit rune is not white space. -/
theorem goSpace_of_isDigit (c : Char) (h : c.isDigit = true) : goSpace c = false := by
  have hv : 48 ≤ c.val.toBitVec.toNat ∧ c.val.toBitVec.toNat ≤ 57 := by
    simp only [Char.isDigit, Bool.and_eq_true, decide_eq_true_eq, ge_iff_le,
      UInt32.le_def, BitVec.le_def] at h
    have e48 : ((48 : UInt32)).toBitVec.toNat = 48 := rfl
    have e57 : ((57 : UInt32)).toBitVec.toNat = 57 := rfl
    omega
  rw [Bool.eq_false_iff]
  intro ht
  simp only [goSpace, Bool.or_eq_true, Bool.and_eq_true, decide_eq_true_eq] at ht
  rcases ht with
    ((((((((hmem | h85) | hA0) | h1680) | hrange) | h28) | h29) | h2F) | h5F) | h30
  · have hm := List.mem_of_elem_eq_true hmem
    fin_cases hm <;> exact absurd h (by decide)
  · have hx : c.val.toBitVec.toNat = 133 := by rw [h85]; rfl
    omega
  · have hx : c.val.toBitVec.toNat = 160 := by rw [hA0]; rfl
    omega
  · have hx : c.val.toBitVec.toNat = 5760 := by rw [h1680]; rfl
    omega
  · obtain ⟨ha, hb⟩ := hrange
    simp only [UInt32.le_def, BitVec.le_def] at ha hb
    have ea : ((8192 : UInt32)).toBitVec.toNat = 8192 := rfl
    omega
  · have hx : c.val.toBitVec.toNat = 8232 := by rw [h28]; rfl
    omega
  · have hx : c.val.toBitVec.toNat = 8233 := by rw [h29]; rfl
    omega
  · have hx : c.val.toBitVec.toNat = 8239 := by rw [h2F]; rfl
    omega
  · have hx : c.val.toBitVec.toNat = 8287 := by rw [h5F]; rfl
    omega
  · have hx : c.val.toBitVec.toNat = 12288 := by rw [h30]; rfl
    omega

/-- The value transformation of the individual-number normalization
branch: strip blanks and hyphens, regroup when the byte length is 12. -/
def normNumValue (v : Str) : Str :=
  let cleaned := replaceAll (chars "-") [] (replaceAll (chars " ") [] v)
  if utf8Len cleaned = 12 then group444 cleaned else v

/-- The value transformation of the license-number normalization branch:
one double-blank collapse pass and a trim. -/
def normLicValue (v : Str) : Str :=
  goTrimSpace (replaceAll (chars "  ") (chars " ") v)

theorem get_licStep_self (m : FieldMap) :
    fmGet (normalizeLicenseNumberStep m) "license_number" =
      (fmGet m "license_number").map normLicValue := by
  unfold normalizeLicenseNumberStep
  cases h : fmGet m "license_number" with
  | none => simp [h]
  | some v => simp [fmGet_fmSet, normLicValue]

theorem get_licStep_ne (m : FieldMap) (k : String) (hk : k ≠ "license_number") :
    fmGet (normalizeLicenseNumberStep m) k = fmGet m k := by
  unfold normalizeLicenseNumberStep
  cases h : fmGet m "license_number" with
  | none => rfl
  | some v => simp [fmGet_fmSet, hk]

theorem get_numStep_self (m : FieldMap) :
    fmGet (normalizeIndividualNumberStep m) "individual_number" =
      (fmGet m "individual_number").map normNumValue := by
  unfold normalizeIndividualNumberStep
  cases h : fmGet m "individual_number" with
  | none => simp [h]
  | some v =>
    simp only [Option.map_some]
    by_cases h12 : utf8Len (replaceAll (chars "-") [] (replaceAll (chars " ") [] v)) = 12
    · rw [if_pos h12]
      simp [fmGet_fmSet, normNumValue, h12]
    · rw [if_neg h12]
      simp [normNumValue, h12, h]

theorem get_numStep_ne (m : FieldMap) (k : String) (hk : k ≠ "individual_number") :
    fmGet (normalizeIndividualNumberStep m) k = fmGet m k := by
  unfold normalizeIndividualNumberStep
  cases h : fmGet m "individual_number" with
  | none => rfl
  | some v =>
    dsimp only
    by_cases h12 : utf8Len (replaceAll (chars "-") [] (replaceAll (chars " ") [] v)) = 12
    · rw [if_pos h12]
      simp [fmGet_fmSet, hk]
    · rw [if_neg h12]

theorem get_addrStep_ne (m : FieldMap) (k : String) (hk : k ≠ "address") :
    fmGet (normalizeAddressStep m) k = fmGet m k := by
  unfold normalizeAddressStep
  cases h : fmGet m "address" with
  | none => rfl
  | some v => simp [fmGet_fmSet, hk]

theorem get_nameStep_ne (m : FieldMap) (k : String) (hk : k ≠ "name") :
    fmGet (normalizeNameStep m) k = fmGet m k := by
  unfold normalizeNameStep
  cases h : fmGet m "name" with
  | none => rfl
  | some v => simp [fmGet_fmSet, hk]

theorem get_genderStep_ne (m : FieldMap) (k : String) (hk : k ≠ "gender") :
    fmGet (normalizeGenderStep m) k = fmGet m k := by
  unfold normalizeGenderStep
  cases h : fmGet m "gender" with
  | none => rfl
  | some v =>
    dsimp only
    by_cases h1 : goTrimSpace v = chars "男性" ∨ goTrimSpace v = chars "男"
    · rw [if_pos h1]
      simp [fmGet_fmSet, hk]
    · rw [if_neg h1]
      by_cases h2 : goTrimSpace v = chars "女性" ∨ goTrimSpace v = chars "女"
      · rw [if_pos h2]
        simp [fmGet_fmSet, hk]
      · rw [if_neg h2]

/-- The individual-number field after the full individual-number-card
postProcess. -/
theorem get_postINC_number (m : FieldMap) :
    fmGet (postProcessExtractedDataINC m) "individual_number" =
      (fmGet m "individual_number").map normNumValue := by
  unfold postProcessExtractedDataINC
  rw [get_genderStep_ne _ _ (by decide), get_nameStep_ne _ _ (by decide),
    get_addrStep_ne _ _ (by decide), get_numStep_self]

/-- The license-number field after the full drivers-license postProcess. -/
theorem get_postDL_license (m : FieldMap) :
    fmGet (postProcessExtractedDataDL m) "license_number" =
      (fmGet m "license_number").map normLicValue := by
  unfold postProcessExtractedDataDL
  rw [get_nameStep_ne _ _ (by decide), get_addrStep_ne _ _ (by decide),
    get_licStep_self]

/-- Stripping blanks and hyphens undoes the four-four-four regrouping of a
blank-free, hyphen-free value of at most 12 runes. -/
theorem strip_group444 (d : Str) (hs : ∀ c ∈ d, c ≠ ' ') (hh : ∀ c ∈ d, c ≠ '-')
    (hlen : d.length ≤ 12) :
    replaceAll (chars "-") [] (replaceAll (chars " ") [] (group444 d)) = d := by
  rw [show chars "-" = ['-'] from rfl, show chars " " = [' '] from rfl,
    replaceAll_singleton, replaceAll_singleton]
  unfold group444
  have fs : ∀ (t : Str), (∀ c ∈ t, c ≠ ' ') → t.filter (fun c => c != ' ') = t :=
    fun t ht => List.filter_eq_self.mpr (fun a ha => by simp [ht a ha])
  have fh : ∀ (t : Str), (∀ c ∈ t, c ≠ '-') → t.filter (fun c => c != '-') = t :=
    fun t ht => List.filter_eq_self.mpr (fun a ha => by simp [ht a ha])
  have m1 : ∀ c ∈ d.take 4, c ∈ d := fun c hc => List.mem_of_mem_take hc
  have m2 : ∀ c ∈ (d.drop 4).take 4, c ∈ d :=
    fun c hc => List.mem_of_mem_drop (List.mem_of_mem_take hc)
  have m3 : ∀ c ∈ (d.drop 8).take 4, c ∈ d :=
    fun c hc => List.mem_of_mem_drop (List.mem_of_mem_take hc)
  simp only [List.filter_append]
  rw [fs _ (fun c hc => hs c (m1 c hc)), fs _ (fun c hc => hs c (m2 c hc)),
    fs _ (fun c hc => hs c (m3 c hc)),
    show (chars "-").filter (fun c => c != ' ') = chars "-" from rfl]
  rw [fh _ (fun c hc => hh c (m1 c hc)), fh _ (fun c hc => hh c (m2 c hc)),
    fh _ (fun c hc => hh c (m3 c hc)),
    show (chars "-").filter (fun c => c != '-') = [] from rfl]
  simp only [List.append_nil, List.nil_append, List.append_assoc]
  rw [show (8 : Nat) = 4 + 4 from rfl, ← List.drop_drop]
  rw [← List.take_add, ← List.take_add]
  exact List.take_of_length_le (by omega)

/-- The individual-number value normalization is idempotent. -/
theorem normNumValue_idem (v : Str) : normNumValue (normNumValue v) = normNumValue v := by
  by_cases h12 : utf8Len (replaceAll (chars "-") [] (replaceAll (chars " ") [] v)) = 12
  · have h1 : normNumValue v =
        group444 (replaceAll (chars "-") [] (replaceAll (chars " ") [] v)) := by
      unfold normNumValue
      rw [if_pos h12]
    have hs : ∀ c ∈ replaceAll (chars "-") [] (replaceAll (chars " ") [] v), c ≠ ' ' := by
      rw [show chars "-" = ['-'] from rfl, show chars " " = [' '] from rfl,
        replaceAll_singleton, replaceAll_singleton]
      intro c hc
      have h1m := (List.mem_filter.mp hc).1
      have := (List.mem_filter.mp h1m).2
      simpa using this
    have hhh : ∀ c ∈ replaceAll (chars "-") [] (replaceAll (chars " ") [] v), c ≠ '-' := by
      rw [show chars "-" = ['-'] from rfl, replaceAll_singleton]
      intro c hc
      have := (List.mem_filter.mp hc).2
      simpa using this
    have hlen : (replaceAll (chars "-") [] (replaceAll (chars " ") [] v)).length ≤ 12 := by
      have := length_le_utf8Len (replaceAll (chars "-") [] (replaceAll (chars " ") [] v))
      omega
    rw [h1]
    unfold normNumValue
    rw [strip_group444 _ hs hhh hlen, if_pos h12]
  · have h1 : normNumValue v = v := by
      unfold normNumValue
      rw [if_neg h12]
    rw [h1, h1]

/-- Every rune of a regrouped value comes from the value or is a hyphen. -/
theorem mem_group444 (d : Str) (c : Char) (hc : c ∈ group444 d) : c ∈ d ∨ c = '-' := by
  unfold group444 at hc
  simp only [List.mem_append] at hc
  rcases hc with ((((h | h) | h) | h) | h)
  · exact Or.inl (List.mem_of_mem_take h)
  · right
    simpa [chars] using h
  · exact Or.inl (List.mem_of_mem_drop (List.mem_of_mem_take h))
  · right
    simpa [chars] using h
  · exact Or.inl (List.mem_of_mem_drop (List.mem_of_mem_take h))

/-- The drivers-license normalization leaves a regrouped 12-digit value
unchanged: it has no double blank and no surrounding white space. -/
theorem normLicValue_group444 (d : Str) (hd : d.all Char.isDigit = true) :
    normLicValue (group444 d) = group444 d := by
  have hall := List.all_eq_true.mp hd
  have hns : ∀ c ∈ group444 d, c ≠ ' ' := by
    intro c hc he
    rcases mem_group444 d c hc with h | h
    · subst he
      exact absurd (hall ' ' h) (by decide)
    · rw [he] at h
      exact absurd h (by decide)
  unfold normLicValue
  rw [replaceAll_of_not_contains _ _ _ (not_contains_doubleblank _ hns)]
  refine goTrimSpace_of_no_space _ (fun c hc => ?_)
  rcases mem_group444 d c hc with h | h
  · exact goSpace_of_isDigit c (hall c h)
  · subst h
    decide

/-- The individual-number normalization leaves a regrouped 12-digit value
unchanged. -/
theorem normNumValue_group444 (d : Str) (hd : d.all Char.isDigit = true)
    (hlen : d.length = 12) : normNumValue (group444 d) = group444 d := by
  have hall := List.all_eq_true.mp hd
  have hs : ∀ c ∈ d, c ≠ ' ' := by
    intro c hc he
    subst he
    exact absurd (hall ' ' hc) (by decide)
  have hh : ∀ c ∈ d, c ≠ '-' := by
    intro c hc he
    subst he
    exact absurd (hall '-' hc) (by decide)
  unfold normNumValue
  rw [strip_group444 d hs hh (le_of_eq hlen),
    if_pos (by rw [utf8Len_of_all_digits d hd, hlen])]

/-- C3 counterexample: a fallback run of the drivers-license parser whose
license number is exactly 12 digits is NOT rewritten into the
four-four-four hyphen-grouped form; the drivers-license normalization has
no regrouping step. -/
theorem c3_counterexample :
    fmGet (parseTextWithRegexDL dlPatterns (chars "氏名 山田 太郎\n免許証番号 123456789012"))
      "license_number" = some (chars "123456789012") ∧
    (chars "123456789012").length = 12 ∧
    chars "123456789012" ≠ chars "1234-5678-9012" := by decide

/-- C3 amended: only the individual-number-card normalization regroups a
12-byte numeric ID as four-four-four; the drivers-license normalization
merely collapses double blanks once and trims the license number. -/
theorem c3_amended (m : FieldMap) (v : Str) :
    (fmGet m "individual_number" = some v →
      utf8Len (replaceAll (chars "-") [] (replaceAll (chars " ") [] v)) = 12 →
      fmGet (postProcessExtractedDataINC m) "individual_number" =
        some (group444 (replaceAll (chars "-") [] (replaceAll (chars " ") [] v)))) ∧
    (fmGet m "license_number" = some v →
      fmGet (postProcessExtractedDataDL m) "license_number" =
        some (goTrimSpace (replaceAll (chars "  ") (chars " ") v))) := by
  constructor
  · intro hv h12
    rw [get_postINC_number, hv]
    simp [normNumValue, h12]
  · intro hv
    rw [get_postDL_license, hv]
    simp [normLicValue]

/-- C9 counterexample: the license-number normalization of the
drivers-license parser is a single double-blank collapse pass, so a value
with a run of four blanks is changed again by a second application:
normalize composed with itself differs from normalize on this map. -/
theorem c9_counterexample :
    fmGet (postProcessExtractedDataDL (postProcessExtractedDataDL
        [("license_number", chars "12    34")])) "license_number" ≠
      fmGet (postProcessExtractedDataDL
        [("license_number", chars "12    34")]) "license_number" := by decide

/-- C9 amended: the individual-number-card normalization is idempotent on
the numeric-ID field for every input map, and an already four-four-four
grouped 12-digit value is a fixed point of both normalizations; but the
drivers-license normalization is not idempotent in general (see the
counterexample). -/
theorem c9_amended :
    (∀ m : FieldMap,
      fmGet (postProcessExtractedDataINC (postProcessExtractedDataINC m))
          "individual_number" =
        fmGet (postProcessExtractedDataINC m) "individual_number") ∧
    (∀ (m : FieldMap) (d : Str), d.length = 12 → d.all Char.isDigit = true →
      fmGet m "license_number" = some (group444 d) →
      fmGet (postProcessExtractedDataDL m) "license_number" = some (group444 d)) ∧
    (∀ (m : FieldMap) (d : Str), d.length = 12 → d.all Char.isDigit = true →
      fmGet m "individual_number" = some (group444 d) →
      fmGet (postProcessExtractedDataINC m) "individual_number" = some (group444 d)) := by
  refine ⟨?_, ?_, ?_⟩
  · intro m
    rw [get_postINC_number, get_postINC_number]
    cases h : fmGet m "individual_number" with
    | none => rfl
    | some v => simp [normNumValue_idem]
  · intro m d hlen hd hv
    rw [get_postDL_license, hv]
    simp [normLicValue_group444 d hd]
  · intro m d hlen hd hv
    rw [get_postINC_number, hv]
    simp [normNumValue_group444 d hd hlen]

/-- A fragment that claims the birth-date sub-field: categorized date,
valid as a date, and containing the birth marker. -/
def birthFragment (r : RegionInfo) : Bool :=
  r.category == "date" && isValidDate r.text && goContains r.text (chars "生")

theorem regionStepDL_birth_ne (data : FieldMap) (r : RegionInfo)
    (h : birthFragment r = false) :
    fmGet (regionStepDL data r) "birth_date" = fmGet data "birth_date" := by
  unfold regionStepDL
  split_ifs <;> simp_all [birthFragment, fmGet_fmSet]

theorem regionStepDL_birth_set (data : FieldMap) (r : RegionInfo)
    (h : birthFragment r = true) :
    fmGet (regionStepDL data r) "birth_date" = some r.text := by
  simp only [birthFragment, Bool.and_eq_true, beq_iff_eq] at h
  obtain ⟨⟨hcat, hval⟩, hcont⟩ := h
  unfold regionStepDL
  rw [if_neg (by rw [hcat]; decide), if_neg (by rw [hcat]; decide), if_pos hcat,
    if_pos hval, if_pos hcont, fmGet_fmSet]
  simp

theorem regionStepINC_birth_ne (data : FieldMap) (r : RegionInfo)
    (h : birthFragment r = false) :
    fmGet (regionStepINC data r) "birth_date" = fmGet data "birth_date" := by
  unfold regionStepINC
  split_ifs <;> simp_all [birthFragment, fmGet_fmSet]

theorem regionStepINC_birth_set (data : FieldMap) (r : RegionInfo)
    (h : birthFragment r = true) :
    fmGet (regionStepINC data r) "birth_date" = some r.text := by
  simp only [birthFragment, Bool.and_eq_true, beq_iff_eq] at h
  obtain ⟨⟨hcat, hval⟩, hcont⟩ := h
  unfold regionStepINC
  rw [if_neg (by rw [hcat]; decide), if_neg (by rw [hcat]; decide), if_pos hcat,
    if_pos hval, if_pos hcont, fmGet_fmSet]
  simp

theorem regionLoop_birthDL (regions : List RegionInfo) :
    ∀ data : FieldMap,
      fmGet (regions.foldl regionStepDL data) "birth_date" =
        match (regions.filter birthFragment).getLast? with
        | some r => some r.text
        | none => fmGet data "birth_date" := by
  induction regions with
  | nil => intro data; rfl
  | cons r rest ih =>
    intro data
    rw [List.foldl_cons, ih]
    by_cases hb : birthFragment r = true
    · rw [List.filter_cons_of_pos hb]
      cases hq : (rest.filter birthFragment).getLast? with
      | some q =>
        have hne : rest.filter birthFragment ≠ [] := by
          intro he
          rw [he] at hq
          cases hq
        rw [show r :: rest.filter birthFragment = [r] ++ rest.filter birthFragment from rfl,
          List.getLast?_append_of_ne_nil [r] hne, hq]
      | none =>
        have hnil : rest.filter birthFragment = [] := by
          rwa [← List.getLast?_eq_none_iff]
        rw [hnil]
        exact regionStepDL_birth_set data r hb
    · have hb0 : birthFragment r = false := by
        rwa [Bool.not_eq_true] at hb
      rw [List.filter_cons_of_neg (by rw [hb0]; exact Bool.false_ne_true)]
      cases hq : (rest.filter birthFragment).getLast? with
      | some q => rfl
      | none => exact regionStepDL_birth_ne data r hb0
  
theorem regionLoop_birthINC (regions : List RegionInfo) :
    ∀ data : FieldMap,
      fmGet (regions.foldl regionStepINC data) "birth_date" =
        match (regions.filter birthFragment).getLast? with
        | some r => some r.text
        | none => fmGet data "birth_date" := by
  induction regions with
  | nil => intro data; rfl
  | cons r rest ih =>
    intro data
    rw [List.foldl_cons, ih]
    by_cases hb : birthFragment r = true
    · rw [List.filter_cons_of_pos hb]
      cases hq : (rest.filter birthFragment).getLast? with
      | some q =>
        have hne : rest.filter birthFragment ≠ [] := by
          intro he
          rw [he] at hq
          cases hq
        rw [show r :: rest.filter birthFragment = [r] ++ rest.filter birthFragment from rfl,
          List.getLast?_append_of_ne_nil [r] hne, hq]
      | none =>
        have hnil : rest.filter birthFragment = [] := by
          rwa [← List.getLast?_eq_none_iff]
        rw [hnil]
        exact regionStepINC_birth_set data r hb
    · have hb0 : birthFragment r = false := by
        rwa [Bool.not_eq_true] at hb
      rw [List.filter_cons_of_neg (by rw [hb0]; exact Bool.false_ne_true)]
      cases hq : (rest.filter birthFragment).getLast? with
      | some q => rfl
      | none => exact regionStepINC_birth_ne data r hb0

theorem applyEnhancements_birth (regions : List RegionInfo) (data : FieldMap) :
    fmGet (applyEnhancements regions data) "birth_date" = fmGet data "birth_date" := by
  unfold applyEnhancements
  by_cases h1 : extractMunicipalityFromRegions regions ≠ [] <;>
    by_cases h2 : extractNameFromRegions regions ≠ [] <;>
    simp [h1, h2, fmGet_fmSet]

/-- C1 counterexample: two fragments, both categorized date, both passing
isValidDate and both containing the birth marker; the region stage stores
the SECOND fragment's text in birth_date, not the first: later fragments
overwrite, they are not dropped. -/
theorem c1_counterexample :
    isValidDate (chars "平成5年1月1日生") = true ∧
    goContains (chars "平成5年1月1日生") (chars "生") = true ∧
    isValidDate (chars "令和2年3月4日生") = true ∧
    goContains (chars "令和2年3月4日生") (chars "生") = true ∧
    fmGet (parseWithRegionDetectionDL
        [⟨chars "平成5年1月1日生", "date"⟩, ⟨chars "令和2年3月4日生", "date"⟩])
      "birth_date" = some (chars "令和2年3月4日生") ∧
    chars "令和2年3月4日生" ≠ chars "平成5年1月1日生" := by decide

/-- C1 amended: within the region dispatch of both parsers, the LAST
fragment categorized date that passes isValidDate and contains the birth
marker populates birth_date (each matching fragment overwrites the
previous value); birth_date is absent exactly when no such fragment
exists. -/
theorem c1_amended (regions : List RegionInfo) :
    fmGet (parseWithRegionDetectionDL regions) "birth_date" =
      ((regions.filter birthFragment).getLast?).map RegionInfo.text ∧
    fmGet (parseWithRegionDetectionINC regions) "birth_date" =
      ((regions.filter birthFragment).getLast?).map RegionInfo.text := by
  constructor
  · unfold parseWithRegionDetectionDL
    rw [applyEnhancements_birth, regionLoop_birthDL]
    cases (regions.filter birthFragment).getLast? <;> rfl
  · unfold parseWithRegionDetectionINC
    rw [applyEnhancements_birth, regionLoop_birthINC]
    cases (regions.filter birthFragment).getLast? <;> rfl

/-- The region stage fails for a parse call when region extraction
errored, produced an empty map, or produced a map that fails validation. -/
def regionStageFailsDL : Except String (List RegionInfo) → Prop
  | .error _ => True
  | .ok regions =>
    (parseWithRegionDetectionDL regions).length = 0 ∨
      validateExtractedDataDL (parseWithRegionDetectionDL regions) ≠ none

/-- The individual-number-card version of regionStageFailsDL. -/
def regionStageFailsINC : Except String (List RegionInfo) → Prop
  | .error _ => True
  | .ok regions =>
    (parseWithRegionDetectionINC regions).length = 0 ∨
      validateExtractedDataINC (parseWithRegionDetectionINC regions) ≠ none

/-- C2: whenever the region stage fails (error, empty map, or failed
validation), Parse equals the fallback stage applied to the flat-OCR
outcome alone, for both parsers - no region-derived field can influence
the result; and the fallback stage surfaces its own failures: an OCR error
and a validation error on the regex-extracted map are returned as errors
of the parse call. -/
theorem c2_theorem :
    (∀ (pats : List Pat) (regionOut : Except String (List RegionInfo))
        (ocrOut : Except String Str), regionStageFailsDL regionOut →
      ParseDL pats regionOut ocrOut = fallbackStageDL pats ocrOut) ∧
    (∀ (pats : List Pat) (regionOut : Except String (List RegionInfo))
        (ocrOut : Except String Str), regionStageFailsINC regionOut →
      ParseINC pats regionOut ocrOut = fallbackStageINC pats ocrOut) ∧
    (∀ (pats : List Pat) (e : String),
      fallbackStageDL pats (.error e) =
        .error ("failed to extract text via OCR: " ++ e)) ∧
    (∀ (pats : List Pat) (e : String),
      fallbackStageINC pats (.error e) =
        .error ("failed to extract text via OCR: " ++ e)) ∧
    (∀ (pats : List Pat) (t : Str) (e : String),
      validateExtractedDataDL (parseTextWithRegexDL pats t) = some e →
        fallbackStageDL pats (.ok t) =
          .error ("validation failed for drivers license data: " ++ e)) ∧
    (∀ (pats : List Pat) (t : Str) (e : String),
      validateExtractedDataINC (parseTextWithRegexINC pats t) = some e →
        fallbackStageINC pats (.ok t) =
          .error ("validation failed for individual number card data: " ++ e)) := by
  refine ⟨?_, ?_, ?_, ?_, ?_, ?_⟩
  · intro pats regionOut ocrOut hfail
    cases regionOut with
    | error e => cases ocrOut <;> rfl
    | ok regions =>
      unfold ParseDL
      dsimp only
      rcases hfail with hlen | hval
      · rw [if_neg (by omega)]
        cases ocrOut <;> rfl
      · cases hv : validateExtractedDataDL (parseWithRegionDetectionDL regions) with
        | none => exact absurd hv hval
        | some msg =>
          by_cases hlen2 : 0 < (parseWithRegionDetectionDL regions).length
          · rw [if_pos hlen2]
            cases ocrOut <;> rfl
          · rw [if_neg hlen2]
            cases ocrOut <;> rfl
  · intro pats regionOut ocrOut hfail
    cases regionOut with
    | error e => cases ocrOut <;> rfl
    | ok regions =>
      unfold ParseINC
      dsimp only
      rcases hfail with hlen | hval
      · rw [if_neg (by omega)]
        cases ocrOut <;> rfl
      · cases hv : validateExtractedDataINC (parseWithRegionDetectionINC regions) with
        | none => exact absurd hv hval
        | some msg =>
          by_cases hlen2 : 0 < (parseWithRegionDetectionINC regions).length
          · rw [if_pos hlen2]
            cases ocrOut <;> rfl
          · rw [if_neg hlen2]
            cases ocrOut <;> rfl
  · intro pats e
    rfl
  · intro pats e
    rfl
  · intro pats t e hv
    unfold fallbackStageDL
    dsimp only
    rw [hv]
  · intro pats t e hv
    unfold fallbackStageINC
    dsimp only
    rw [hv]

/-- The extractable fields of the individual number card as enumerated by
the repository README (name, address, birth date, gender, individual
number, issue date, expiry date). -/
def incFieldVocabulary : List String :=
  ["name", "address", "birth_date", "gender", "individual_number",
    "issue_date", "expiry_date"]

/-- C6: the canonical pattern loop iterates over every pattern of the
table, the alternate patterns included, and stores each match under the
pattern key itself; on OCR text matching only the alternate name pattern
the returned map carries the internal key name_alt, which is outside the
documented field vocabulary. -/
theorem c6_theorem :
    "name_alt" ∈ fmKeys (parseTextWithRegexINC incPatterns (chars "山田 太郎")) ∧
    fmGet (parseTextWithRegexINC incPatterns (chars "山田 太郎")) "name_alt" =
      some (chars "山田 太郎") ∧
    "name_alt" ∉ incFieldVocabulary := by decide

/-- The trimmed non-empty capture a pattern contributes, if any. -/
def patMatchValue (t : Str) (p : Pat) : Option Str :=
  match patCapture t p with
  | some m => if goTrimSpace m ≠ [] then some (goTrimSpace m) else none
  | none => none

theorem fmGet_applyPattern_self (t : Str) (data : FieldMap) (p : Pat) :
    fmGet (applyPattern t data p) p.key =
      match patMatchValue t p with
      | some v => some v
      | none => fmGet data p.key := by
  unfold applyPattern patMatchValue
  cases patCapture t p with
  | none => rfl
  | some m =>
    dsimp only
    by_cases h : goTrimSpace m ≠ []
    · rw [if_pos h, if_pos h, fmGet_fmSet, if_pos rfl]
    · rw [if_neg h, if_neg h]

theorem fmGet_applyPattern_ne (t : Str) (data : FieldMap) (p : Pat) (k : String)
    (hk : k ≠ p.key) :
    fmGet (applyPattern t data p) k = fmGet data k := by
  unfold applyPattern
  cases patCapture t p with
  | none => rfl
  | some m =>
    dsimp only
    by_cases h : goTrimSpace m ≠ []
    · rw [if_pos h, fmGet_fmSet, if_neg hk]
    · rw [if_neg h]

theorem canonicalFold_get (t : Str) :
    ∀ (pats : List Pat) (data : FieldMap) (k : String),
    (pats.map Pat.key).Nodup →
    fmGet (pats.foldl (applyPattern t) data) k =
      match pats.find? (fun p => p.key = k) with
      | some p =>
        (match patMatchValue t p with
         | some v => some v
         | none => fmGet data k)
      | none => fmGet data k := by
  intro pats
  induction pats with
  | nil => intro data k _; rfl
  | cons p rest ih =>
    intro data k hnd
    rw [List.map_cons, List.nodup_cons] at hnd
    obtain ⟨hnotin, hnd2⟩ := hnd
    rw [List.foldl_cons, ih (applyPattern t data p) k hnd2]
    by_cases hk : p.key = k
    · subst hk
      have hfind : rest.find? (fun q => q.key = p.key) = none :=
        List.find?_eq_none.mpr (fun q hq hqk =>
          hnotin (List.mem_map.mpr ⟨q, hq, of_decide_eq_true hqk⟩))
      rw [hfind, List.find?_cons_of_pos _ (by simp)]
      exact fmGet_applyPattern_self t data p
    · rw [List.find?_cons_of_neg _ (by simp [hk]),
        fmGet_applyPattern_ne t data p k (fun h => hk h.symm)]

theorem find?_key_perm :
    ∀ {p1 p2 : List Pat}, p1.Perm p2 → (p1.map Pat.key).Nodup →
      ∀ k, p1.find? (fun p => p.key = k) = p2.find? (fun p => p.key = k) := by
  intro p1 p2 hperm
  induction hperm with
  | nil => intro _ _; rfl
  | cons x hl ih =>
    intro hnd k
    rw [List.map_cons, List.nodup_cons] at hnd
    by_cases hk : x.key = k
    · rw [List.find?_cons_of_pos _ (by simp [hk]), List.find?_cons_of_pos _ (by simp [hk])]
    · rw [List.find?_cons_of_neg _ (by simp [hk]), List.find?_cons_of_neg _ (by simp [hk])]
      exact ih hnd.2 k
  | swap x y l =>
    intro hnd k
    rw [List.map_cons, List.map_cons, List.nodup_cons] at hnd
    have hxy : y.key ≠ x.key := fun he => hnd.1 (by rw [he]; exact List.mem_cons_self _ _)
    by_cases hk1 : y.key = k <;> by_cases hk2 : x.key = k
    · exact absurd (hk1.trans hk2.symm) hxy
    · rw [List.find?_cons_of_pos _ (by simp [hk1]),
        List.find?_cons_of_neg _ (by simp [hk2]),
        List.find?_cons_of_pos _ (by simp [hk1])]
    · rw [List.find?_cons_of_neg _ (by simp [hk1]),
        List.find?_cons_of_pos _ (by simp [hk2]),
        List.find?_cons_of_pos _ (by simp [hk2])]
    · rw [List.find?_cons_of_neg _ (by simp [hk1]),
        List.find?_cons_of_neg _ (by simp [hk2]),
        List.find?_cons_of_neg _ (by simp [hk2]),
        List.find?_cons_of_neg _ (by simp [hk1])]
  | trans h12 h23 ih12 ih23 =>
    intro hnd k
    rw [ih12 hnd k, ih23 (((h12.map Pat.key).nodup_iff).mp hnd) k]

theorem fmEquiv_fmSet {d1 d2 : FieldMap} (h : fmEquiv d1 d2) (k : String) (v : Str) :
    fmEquiv (fmSet d1 k v) (fmSet d2 k v) := by
  intro k2
  rw [fmGet_fmSet, fmGet_fmSet, h k2]

theorem canonicalPass_perm (t : Str) {p1 p2 : List Pat} (hperm : p1.Perm p2)
    (hnd : (p1.map Pat.key).Nodup) :
    fmEquiv (canonicalPass p1 t) (canonicalPass p2 t) := by
  intro k
  unfold canonicalPass
  rw [canonicalFold_get t p1 [] k hnd,
    canonicalFold_get t p2 [] k (((hperm.map Pat.key).nodup_iff).mp hnd),
    find?_key_perm hperm hnd k]

theorem altStep_perm (t : Str) {p1 p2 : List Pat} {d1 d2 : FieldMap}
    (hfind : ∀ a, p1.find? (fun p => p.key = a) = p2.find? (fun p => p.key = a))
    (hd : fmEquiv d1 d2) (f a : String) :
    fmEquiv (altStep p1 t d1 f a) (altStep p2 t d2 f a) := by
  intro k
  unfold altStep
  have hhas : fmHas d1 f = fmHas d2 f := by
    unfold fmHas
    rw [hd f]
  rw [hhas, hfind a]
  by_cases hh : fmHas d2 f = true
  · rw [if_pos hh, if_pos hh]
    exact hd k
  · rw [if_neg hh, if_neg hh]
    cases hf : p2.find? (fun p => p.key = a) with
    | none => exact hd k
    | some p =>
      dsimp only
      cases patCapture t p with
      | none => exact hd k
      | some m => exact fmEquiv_fmSet hd f (goTrimSpace m) k

theorem licStep_equiv {d1 d2 : FieldMap} (h : fmEquiv d1 d2) :
    fmEquiv (normalizeLicenseNumberStep d1) (normalizeLicenseNumberStep d2) := by
  intro k
  unfold normalizeLicenseNumberStep
  rw [h "license_number"]
  cases hf : fmGet d2 "license_number" with
  | none => exact h k
  | some v => exact fmEquiv_fmSet h _ _ k

theorem numStep_equiv {d1 d2 : FieldMap} (h : fmEquiv d1 d2) :
    fmEquiv (normalizeIndividualNumberStep d1) (normalizeIndividualNumberStep d2) := by
  intro k
  unfold normalizeIndividualNumberStep
  rw [h "individual_number"]
  cases hf : fmGet d2 "individual_number" with
  | none => exact h k
  | some v =>
    dsimp only
    by_cases h12 : utf8Len (replaceAll (chars "-") [] (replaceAll (chars " ") [] v)) = 12
    · rw [if_pos h12, if_pos h12]
      exact fmEquiv_fmSet h _ _ k
    · rw [if_neg h12, if_neg h12]
      exact h k

theorem addrStep_equiv {d1 d2 : FieldMap} (h : fmEquiv d1 d2) :
    fmEquiv (normalizeAddressStep d1) (normalizeAddressStep d2) := by
  intro k
  unfold normalizeAddressStep
  rw [h "address"]
  cases hf : fmGet d2 "address" with
  | none => exact h k
  | some v => exact fmEquiv_fmSet h _ _ k

theorem nameStep_equiv {d1 d2 : FieldMap} (h : fmEquiv d1 d2) :
    fmEquiv (normalizeNameStep d1) (normalizeNameStep d2) := by
  intro k
  unfold normalizeNameStep
  rw [h "name"]
  cases hf : fmGet d2 "name" with
  | none => exact h k
  | some v => exact fmEquiv_fmSet h _ _ k

theorem genderStep_equiv {d1 d2 : FieldMap} (h : fmEquiv d1 d2) :
    fmEquiv (normalizeGenderStep d1) (normalizeGenderStep d2) := by
  intro k
  unfold normalizeGenderStep
  rw [h "gender"]
  cases hf : fmGet d2 "gender" with
  | none => exact h k
  | some v =>
    dsimp only
    by_cases h1 : goTrimSpace v = chars "男性" ∨ goTrimSpace v = chars "男"
    · rw [if_pos h1, if_pos h1]
      exact fmEquiv_fmSet h _ _ k
    · rw [if_neg h1, if_neg h1]
      by_cases h2 : goTrimSpace v = chars "女性" ∨ goTrimSpace v = chars "女"
      · rw [if_pos h2, if_pos h2]
        exact fmEquiv_fmSet h _ _ k
      · rw [if_neg h2, if_neg h2]
        exact h k

/-- C10: the fallback regex extraction is a function of the OCR text and
the pattern SET: iterating the pattern table in any order (any permutation
of the table, keys unique as they are in a Go map) produces the same
FieldMap, for both parsers - each pattern writes only to its own key, the
alternate steps consult only key lookups, and postProcess reads and writes
fixed keys. -/
theorem c10_theorem (p1 p2 : List Pat) (hperm : p1.Perm p2)
    (hnd : (p1.map Pat.key).Nodup) (t : Str) :
    fmEquiv (parseTextWithRegexDL p1 t) (parseTextWithRegexDL p2 t) ∧
    fmEquiv (parseTextWithRegexINC p1 t) (parseTextWithRegexINC p2 t) := by
  have hfind := find?_key_perm hperm hnd
  have e0 := canonicalPass_perm t hperm hnd
  have e1 := altStep_perm t hfind e0 "name" "name_alt"
  have e2 := altStep_perm t hfind e1 "birth_date" "birth_date_alt"
  constructor
  · exact nameStep_equiv (addrStep_equiv (licStep_equiv e2))
  · have e3 := altStep_perm t hfind e2 "individual_number" "individual_number_alt"
    exact genderStep_equiv (nameStep_equiv (addrStep_equiv (numStep_equiv e3)))

/-- C10 witness: a transposed-order table (the reversed individual card
table) yields the same map on a concrete OCR text. -/
theorem c10_witness :
    fmEquiv (parseTextWithRegexINC incPatterns (chars "山田 太郎"))
      (parseTextWithRegexINC incPatterns.reverse (chars "山田 太郎")) :=
  (c10_theorem incPatterns incPatterns.reverse
    (List.reverse_perm incPatterns).symm (by decide) (chars "山田 太郎")).2
